import Mathlib

/-!
Verification of the secretinit core: the secret-address grammar
(pkg/parser/parser.go), the processing/expansion policy
(pkg/processor/processor.go), the cached git credential backend
(backend git.go, cache.go) and the JSON key extractor
(pkg/backend/utils.go), shallowly embedded over lists of characters.
Go strings are modelled as List Char; Go maps as association lists
updated in insertion order; the external git credential helper and the
cloud SDKs as explicit function parameters; Go's net/url.Parse as its
scheme-extraction core (host and percent-escape validation, which the
repository never relies on, are abstracted as always succeeding).
-/

namespace SecretInit

/-- Characters of a Go string. -/
abbrev Chars := List Char

/-- Coerce a Lean string literal to the character-list model. -/
def str (s : String) : Chars := s.data

/-- Model of Go strings.SplitN(s, sep, 2): split at the first occurrence of
sep, returning none when sep does not occur. The occurrence found is the
leftmost one, as with strings.Index. -/
def splitOnce (sep : Chars) : Chars → Option (Chars × Chars)
  | [] => none
  | c :: rest =>
    if sep.isPrefixOf (c :: rest) then some ([], (c :: rest).drop sep.length)
    else
      match splitOnce sep rest with
      | some (l, r) => some (c :: l, r)
      | none => none

/-- Whether sep occurs as a contiguous substring (strings.Contains). -/
def containsSub (sep s : Chars) : Bool := (splitOnce sep s).isSome

/-- Number of colons in a string. -/
def countColon (s : Chars) : Nat := s.count ':'

/-- Whether the last character is a colon. -/
def lastIsColon (s : Chars) : Bool :=
  match s.getLast? with
  | some c => c = ':'
  | none => false

/-- Parsed components of a secret address (parser.SecretSource). -/
structure SecretSource where
  backend : Chars
  service : Chars
  resource : Chars
  keyPath : Chars
deriving DecidableEq, Repr

/-- Errors of ParseSecretString, one constructor per return-error site. -/
inductive ParseError where
  | malformedAddress (main : Chars)
  | invalidGitURL (resource : Chars)
  | invalidGitScheme (resource : Chars)
  | missingService (backend main : Chars)
  | unsupportedBackend (backend : Chars)
deriving DecidableEq, Repr

/-- The git-branch errors are both resource-validation failures
(ErrInvalidResource in the design's error taxonomy). -/
def ParseError.isInvalidResource : ParseError → Bool
  | .invalidGitURL _ => true
  | .invalidGitScheme _ => true
  | _ => false

/-- normalizeGitURL from parser.go: return unchanged when a scheme
separator is present, otherwise put https:// in front. -/
def normalizeGitURL (rawURL : Chars) : Chars :=
  if containsSub (str "://") rawURL then rawURL else str "https://" ++ rawURL

/-- Scheme characters allowed after the first position by Go's
net/url getScheme: letters, digits, plus, minus, dot. -/
def isSchemeTailChar (c : Char) : Bool :=
  c.isAlpha || c.isDigit || c = '+' || c = '-' || c = '.'

/-- Model of the scan loop of Go net/url getScheme. Returns .ok none when
the string has no scheme part, .ok (some (scheme, rest)) when a scheme
followed by a colon was found, and .error () for a colon in first
position (missing protocol scheme). The atStart flag tracks index zero. -/
def goGetSchemeFrom (atStart : Bool) : Chars → Except Unit (Option (Chars × Chars))
  | [] => .ok none
  | c :: cs =>
    if c.isAlpha then
      match goGetSchemeFrom false cs with
      | .ok (some (tl, rest)) => .ok (some (c :: tl, rest))
      | .ok none => .ok none
      | .error e => .error e
    else if c = ':' then
      if atStart then .error () else .ok (some ([], cs))
    else if c.isDigit || c = '+' || c = '-' || c = '.' then
      if atStart then .ok none
      else
        match goGetSchemeFrom false cs with
        | .ok (some (tl, rest)) => .ok (some (c :: tl, rest))
        | .ok none => .ok none
        | .error e => .error e
    else .ok none

/-- First path segment: the part before the first slash (strings.Cut). -/
def takeUntilSlash (s : Chars) : Chars := s.takeWhile (· ≠ '/')

/-- Control characters rejected by url.Parse (stringContainsCTLByte):
bytes below 0x20 and 0x7f; multi-byte UTF-8 encodings contain no such
bytes, so the byte-level check coincides with this character-level one. -/
def hasCTL (s : Chars) : Bool :=
  s.any fun c => c.toNat < 0x20 || c.toNat == 0x7f

/-- Hexadecimal digit (url unescape). -/
def isHexDigit (c : Char) : Bool :=
  c.isDigit || ('a' ≤ c ∧ c ≤ 'f') || ('A' ≤ c ∧ c ≤ 'F')

/-- Hex digit with value at least 8, i.e. the escaped byte is non-ASCII
(url unescape, encodeHost mode). -/
def hexDigitGe8 (c : Char) : Bool :=
  ('8' ≤ c ∧ c ≤ '9') || ('a' ≤ c ∧ c ≤ 'f') || ('A' ≤ c ∧ c ≤ 'F')

/-- Percent-escape well-formedness of url unescape in the modes without
extra restrictions (userinfo, path, fragment): every percent sign is
followed by two hexadecimal digits. -/
def escapesOK : Chars → Bool
  | [] => true
  | '%' :: a :: b :: rest => isHexDigit a && isHexDigit b && escapesOK rest
  | '%' :: _ => false
  | _ :: rest => escapesOK rest

/-- Percent-escape rule of url unescape in encodeHost mode: besides
well-formedness, an escape must encode a non-ASCII byte or be %25. -/
def hostEscapesOK : Chars → Bool
  | [] => true
  | '%' :: a :: b :: rest =>
    isHexDigit a && isHexDigit b && (hexDigitGe8 a || (a = '2' && b = '5'))
      && hostEscapesOK rest
  | '%' :: _ => false
  | _ :: rest => hostEscapesOK rest

/-- Characters allowed in the userinfo component (url validUserinfo):
RFC 3986 unreserved and sub-delimiters plus colon, percent and at. -/
def isUserinfoChar (c : Char) : Bool :=
  c.isAlpha || c.isDigit ||
  c = '-' || c = '.' || c = '_' || c = ':' || c = '~' || c = '!' || c = '$' ||
  c = '&' || c = Char.ofNat 39 || c = '(' || c = ')' || c = '*' || c = '+' ||
  c = ',' || c = ';' || c = '=' || c = '%' || c = '@'

/-- url validOptionalPort applied to the part after the last colon of
the host: empty, or digits only. -/
def validOptionalPort (port : Chars) : Bool := port.all (·.isDigit)

/-- Split at the last occurrence of a character: (before, after), the
separator excluded (strings.LastIndex). -/
def splitLast (c : Char) (s : Chars) : Option (Chars × Chars) :=
  match splitOnce [c] s.reverse with
  | some (l, r) => some (r.reverse, l.reverse)
  | none => none

/-- Validation of url parseHost: a bracketed host needs a closing
bracket and a valid port after it, an unbracketed host needs digits
after its last colon, and host percent-escapes must be non-ASCII or %25.
The IPv6 zone-identifier special case (%25 inside brackets) is
abstracted into the uniform host escape rule. -/
def goParseHostOK (host : Chars) : Bool :=
  (match host with
   | '[' :: _ =>
     match splitLast ']' host with
     | none => false
     | some (_, afterBracket) => validOptionalPort afterBracket
   | _ =>
     match splitLast ':' host with
     | none => true
     | some (_, port) => validOptionalPort port)
  && hostEscapesOK host

/-- Validation of url parseAuthority: split userinfo from host at the
last at-sign, check userinfo characters and escapes, then the host. -/
def goParseAuthorityOK (authority : Chars) : Bool :=
  match splitLast '@' authority with
  | none => goParseHostOK authority
  | some (userinfo, host) =>
    userinfo.all isUserinfoChar && escapesOK userinfo && goParseHostOK host

/-- Remove the query component: everything from the first question mark
on (split inside url parse; the raw query is not validated). -/
def dropQuery (rest : Chars) : Chars :=
  match splitOnce (str "?") rest with
  | some (r, _) => r
  | none => rest

/-- The remainder handling of url parse after scheme and query removal:
an opaque part (no slash, nonempty scheme) is accepted unvalidated; a
scheme-less part without a slash must have no colon in its first
segment; a double-slash (unless a scheme-less triple slash) introduces
an authority cut at the next slash; everything else is a path whose
escapes are checked. -/
def goParseRest (scheme rest : Chars) : Except Unit Chars :=
  if ¬((str "/").isPrefixOf rest) then
    if scheme ≠ [] then .ok scheme
    else if (takeUntilSlash rest).contains ':' then .error ()
    else if escapesOK rest then .ok scheme else .error ()
  else if (scheme ≠ [] ∨ ¬((str "///").isPrefixOf rest)) ∧ (str "//").isPrefixOf rest then
    match splitOnce (str "/") (rest.drop 2) with
    | some (authority, path) =>
      if goParseAuthorityOK authority ∧ escapesOK path then .ok scheme else .error ()
    | none =>
      if goParseAuthorityOK (rest.drop 2) then .ok scheme else .error ()
  else
    if escapesOK rest then .ok scheme else .error ()

/-- url parse on the fragment-less part: control-character check, scheme
extraction, query removal, then the remainder handling. -/
def goParseCore (u : Chars) : Except Unit Chars :=
  if hasCTL u then .error ()
  else
    match goGetSchemeFrom true u with
    | .error _ => .error ()
    | .ok none => goParseRest [] (dropQuery u)
    | .ok (some (scheme, rest)) => goParseRest scheme (dropQuery rest)

/-- Model of Go net/url.Parse restricted to what the repository
observes: the extracted scheme (empty when absent) on success, or a
parse error. Modelled: control-character rejection, scheme extraction,
the colon-in-first-segment check, authority splitting with userinfo
validation, host port validation at the last colon, bracketed hosts,
percent-escape validation of userinfo, host (non-ASCII or %25 only),
path and fragment. Abstracted: scheme lowercasing (the repository stores
the pre-parse string) and the IPv6 zone-identifier unescaping detail. -/
def goURLParse (s : Chars) : Except Unit Chars :=
  match splitOnce (str "#") s with
  | some (u, frag) =>
    match goParseCore u with
    | .error e => .error e
    | .ok scheme =>
      if frag = [] then .ok scheme
      else if escapesOK frag then .ok scheme else .error ()
  | none => goParseCore s

/-- The part before the first fragment delimiter. -/
def preFragment (s : Chars) : Chars :=
  match splitOnce (str "#") s with
  | some (u, _) => u
  | none => s

/-- Whether the URL has a nonempty scheme, in the getScheme sense (the
scheme of the pre-fragment part); independent of the later host, port
and escape validation. -/
def goURLHasScheme (s : Chars) : Bool :=
  match goGetSchemeFrom true (preFragment s) with
  | .ok (some (_ :: _, _)) => true
  | _ => false

/-- The backend-dispatch switch of ParseSecretString: the git branch
normalizes and validates the URL-shaped resource, the cloud branches
split off the service at the first colon, unknown tags fail. -/
def parseBody (backend remaining keyPath mainString : Chars) : Except ParseError SecretSource :=
  if backend = str "git" then
    match goURLParse (normalizeGitURL remaining) with
    | .error _ => .error (.invalidGitURL (normalizeGitURL remaining))
    | .ok scheme =>
      if scheme = [] then .error (.invalidGitScheme (normalizeGitURL remaining))
      else .ok ⟨backend, [], normalizeGitURL remaining, keyPath⟩
  else if backend = str "aws" ∨ backend = str "gcp" ∨ backend = str "azure" then
    match splitOnce (str ":") remaining with
    | none => .error (.missingService backend mainString)
    | some (service, resource) => .ok ⟨backend, service, resource, keyPath⟩
  else .error (.unsupportedBackend backend)

/-- Body of ParseSecretString after the keyPath has been split off:
split mainString at the first colon into backend and remainder, then
dispatch on the backend tag. -/
def parseMain (mainString keyPath : Chars) : Except ParseError SecretSource :=
  match splitOnce (str ":") mainString with
  | none => .error (.malformedAddress mainString)
  | some (backend, remaining) => parseBody backend remaining keyPath mainString

/-- ParseSecretString from pkg/parser/parser.go: split off the keyPath at
the first occurrence of the ::: delimiter, then parse the main string. -/
def parseSecretString (s : Chars) : Except ParseError SecretSource :=
  match splitOnce (str ":::") s with
  | some (mainString, keyPath) => parseMain mainString keyPath
  | none => parseMain s []

/-- The part of the input before the first ::: delimiter (the mainString
of ParseSecretString). -/
def mainStringOf (s : Chars) : Chars :=
  match splitOnce (str ":::") s with
  | some (m, _) => m
  | none => s

/-- Match of the regex fragment ([^@]+)@(.+): a nonempty run of
non-at-sign characters, an at sign, then a nonempty remainder. The plus
quantifier on a negated class admits no backtracking, so the run always
ends at the first at sign. -/
def splitAtUser (t : Chars) : Option (Chars × Chars) :=
  match t.dropWhile (· ≠ '@') with
  | '@' :: tail =>
    if t.takeWhile (· ≠ '@') = [] ∨ tail = [] then none
    else some (t.takeWhile (· ≠ '@'), tail)
  | _ => none

/-- Match of the full regex of parseGitURL in parser.go,
caret (?:(https?://))? ([^@]+)@(.+) dollar, with the regex engine's
preference order: try the https:// alternative of the optional scheme
group first, then http://, then no scheme. Returns (username, hostPath)
on a match. -/
def matchUserURL (raw : Chars) : Option (Chars × Chars) :=
  match if (str "https://").isPrefixOf raw then splitAtUser (raw.drop 8) else none with
  | some p => some p
  | none =>
    match if (str "http://").isPrefixOf raw then splitAtUser (raw.drop 7) else none with
    | some p => some p
    | none => splitAtUser raw

/-- parseGitURL from parser.go: extract the username from a git URL when
present and return the clean URL (normalized) together with the user. -/
def parseGitURL (rawURL : Chars) : Chars × Chars :=
  match matchUserURL rawURL with
  | some (user, hostPath) => (normalizeGitURL hostPath, user)
  | none => (normalizeGitURL rawURL, [])

/-! ## Processor (pkg/processor/processor.go) -/

/-- A backend capability: RetrieveSecret(service, resource, keyPath)
returning a value or an error message. -/
abbrev Backend := Chars → Chars → Chars → Except Chars Chars

/-- Errors of ProcessSecrets, one constructor per return-error site,
carrying the context the Go error message embeds. -/
inductive ProcError where
  | parse (varName : Chars) (e : ParseError)
  | unsupportedBackend (backendType varName : Chars)
  | unsupportedAwsService (service varName : Chars)
  | retrieve (varName address msg : Chars)
deriving DecidableEq, Repr

/-- A SecretProcessor: its registry of backends by backend tag. -/
structure SecretProcessor where
  backends : List (Chars × Backend)

/-- Registry lookup (Go map indexing). -/
def lookupBackend : List (Chars × Backend) → Chars → Option Backend
  | [], _ => none
  | (k, b) :: rest, t => if k = t then some b else lookupBackend rest t

/-- Go map assignment on an association list: overwrite an existing
binding in place, otherwise append. -/
def mapSet : List (Chars × Chars) → Chars → Chars → List (Chars × Chars)
  | [], k, v => [(k, v)]
  | (k', v') :: rest, k, v =>
    if k' = k then (k, v) :: rest else (k', v') :: mapSet rest k v

/-- Go map read on an association list. -/
def mapGet : List (Chars × Chars) → Chars → Option Chars
  | [], _ => none
  | (k', v') :: rest, k => if k' = k then some v' else mapGet rest k

/-- The keyPath used by the single-credential branch of ProcessSecrets:
default an empty keyPath to password for the git backend. -/
def singleModeKeyPath (backendType keyPath : Chars) : Chars :=
  if backendType = str "git" ∧ keyPath = [] then str "password" else keyPath

/-- One iteration of the ProcessSecrets loop on (varName, address),
threading the resolvedSecrets accumulator: parse the address, look up the
registered backend, validate the aws service, then either git
multi-credential expansion (empty keyPath) or single-credential
retrieval. -/
def processOne (p : SecretProcessor) (varName address : Chars)
    (acc : List (Chars × Chars)) : Except ProcError (List (Chars × Chars)) :=
  match parseSecretString address with
  | .error e => .error (.parse varName e)
  | .ok src =>
    match lookupBackend p.backends src.backend with
    | none => .error (.unsupportedBackend src.backend varName)
    | some b =>
      if src.backend = str "aws" ∧ src.service ≠ str "sm" ∧ src.service ≠ str "ps" then
        .error (.unsupportedAwsService src.service varName)
      else if src.backend = str "git" ∧ src.keyPath = [] then
        let acc1 := mapSet acc varName (str "secretinit:" ++ address)
        match b src.service src.resource (str "username") with
        | .error msg => .error (.retrieve varName address msg)
        | .ok username =>
          match b src.service src.resource (str "password") with
          | .error msg => .error (.retrieve varName address msg)
          | .ok password =>
            let cleanURL := (parseGitURL src.resource).1
            .ok (mapSet (mapSet (mapSet acc1
                  (varName ++ str "_URL") cleanURL)
                  (varName ++ str "_USER") username)
                  (varName ++ str "_PASS") password)
      else
        match b src.service src.resource (singleModeKeyPath src.backend src.keyPath) with
        | .error msg => .error (.retrieve varName address msg)
        | .ok v => .ok (mapSet acc varName v)

/-- The ProcessSecrets loop over the variable list. -/
def processSecretsAux (p : SecretProcessor) :
    List (Chars × Chars) → List (Chars × Chars) → Except ProcError (List (Chars × Chars))
  | [], acc => .ok acc
  | (n, a) :: rest, acc =>
    match processOne p n a acc with
    | .error e => .error e
    | .ok acc2 => processSecretsAux p rest acc2

/-- ProcessSecrets from pkg/processor/processor.go: resolve every
(variable, address) binding, aborting on the first error. -/
def processSecrets (p : SecretProcessor) (vars : List (Chars × Chars)) :
    Except ProcError (List (Chars × Chars)) :=
  processSecretsAux p vars []

/-! ## Cached git credential backend (backend cache.go, git.go) -/

/-- The process-wide secret cache together with a counter of external
credential-helper invocations (the fetch counter of the test mocks). -/
structure CacheState where
  entries : List (Chars × Chars)
  fetchCount : Nat
deriving DecidableEq, Repr

/-- The external git credential helper: given clean URL and username,
produce the raw key=value response (git credential fill). -/
structure GitEnv where
  fetch : Chars → Chars → Except Chars Chars

/-- Cache key of the git backend, fmt.Sprintf("git:%s:%s", service,
resource): deliberately excludes keyPath. -/
def gitCacheKey (service resource : Chars) : Chars :=
  str "git:" ++ service ++ str ":" ++ resource

/-- Characters trimmed by strings.TrimSpace (ASCII whitespace; the model
omits the exotic Unicode space classes). -/
def isSpaceChar (c : Char) : Bool :=
  c = ' ' || c = '\t' || c = '\n' || c = '\r'

/-- strings.TrimSpace. -/
def trimSpace (s : Chars) : Chars :=
  ((s.dropWhile isSpaceChar).reverse.dropWhile isSpaceChar).reverse

/-- strings.Split(s, newline): full split into lines, one list entry per
newline-free run. -/
def splitLines : Chars → List Chars
  | [] => [[]]
  | c :: cs =>
    if c = '\n' then [] :: splitLines cs
    else
      match splitLines cs with
      | l :: ls => (c :: l) :: ls
      | [] => [[c]]

/-- parseGitCredential from git.go: scan key=value lines for the
requested keyPath, skipping blank and separator-free lines. -/
def findCredKey (keyPath : Chars) : List Chars → Except Chars Chars
  | [] => .error (str "key '" ++ keyPath ++ str "' not found in git credential response")
  | line :: rest =>
    let t := trimSpace line
    if t = [] then findCredKey keyPath rest
    else
      match splitOnce (str "=") t with
      | none => findCredKey keyPath rest
      | some (k, v) => if k = keyPath then .ok v else findCredKey keyPath rest

/-- parseGitCredential: line-based extraction over the raw credential
response. -/
def parseGitCredential (credentialResponse keyPath : Chars) : Except Chars Chars :=
  findCredKey keyPath (splitLines credentialResponse)

/-- GitBackend.RetrieveSecret with the global cache: on a hit the cached
raw response is post-processed; on a miss the resource is split into
clean URL and username, the external helper runs (counted), and the raw
response is cached before post-processing. -/
def gitRetrieveSecret (env : GitEnv) (service resource keyPath : Chars)
    (st : CacheState) : Except Chars Chars × CacheState :=
  let cacheKey := gitCacheKey service resource
  match mapGet st.entries cacheKey with
  | some raw => (parseGitCredential raw keyPath, st)
  | none =>
    let cleanURL := (parseGitURL resource).1
    let username := (parseGitURL resource).2
    match env.fetch cleanURL username with
    | .error e =>
      (.error (str "failed to retrieve git credential for " ++ cleanURL ++ str ": " ++ e),
       { st with fetchCount := st.fetchCount + 1 })
    | .ok raw =>
      (parseGitCredential raw keyPath,
       { entries := mapSet st.entries cacheKey raw, fetchCount := st.fetchCount + 1 })

/-- A sequence of RetrieveSecret calls against one backend, one call per
keyPath in the list, threading the shared cache state. -/
def runCalls (step : Chars → CacheState → Except Chars Chars × CacheState) :
    List Chars → CacheState → List (Except Chars Chars) × CacheState
  | [], st => ([], st)
  | kp :: rest, st =>
    let out := step kp st
    let outs := runCalls step rest out.2
    (out.1 :: outs.1, outs.2)

/-! ## JSON key extraction (pkg/backend/utils.go) -/

/-- Decoded JSON values, as produced by encoding/json.Unmarshal into
interface values: objects become association lists, numbers are modelled
as integers (Go uses float64; the numeric representation is irrelevant to
the walk logic). -/
inductive JValue where
  | null
  | bool (b : Bool)
  | num (n : Int)
  | str (s : Chars)
  | arr (elems : List JValue)
  | obj (fields : List (Chars × JValue))

/-- Field lookup in a decoded JSON object. -/
def lookupField : List (Chars × JValue) → Chars → Option JValue
  | [], _ => none
  | (k', v') :: rest, k => if k' = k then some v' else lookupField rest k

/-- strings.Split(keyPath, dot): full split into segments. -/
def splitDots : Chars → List Chars
  | [] => [[]]
  | c :: cs =>
    if c = '.' then [] :: splitDots cs
    else
      match splitDots cs with
      | l :: ls => (c :: l) :: ls
      | [] => [[c]]

/-- Errors of extractJSONKey, one per return-error site, carrying the
keyPath, the offending segment and its index where the Go message
embeds them. -/
inductive ExtractError where
  | keyNotFound (keyPath segment : Chars) (index : Nat)
  | notObject (keyPath segment : Chars) (index : Nat)
  | nullValue (keyPath : Chars)
deriving DecidableEq, Repr

/-! Serialization of a decoded value back to JSON text (json.Marshal of
the interface value). String escaping is modelled as the identity since
the repository never extracts keys whose serialized form needs escapes. -/

mutual

def jsonSerialize : JValue → Chars
  | .null => str "null"
  | .bool true => str "true"
  | .bool false => str "false"
  | .num n => str (toString n)
  | .str s => '"' :: s ++ ['"']
  | .arr elems => '[' :: jsonSerializeList elems ++ [']']
  | .obj fields => '\x7b' :: jsonSerializeFields fields ++ ['\x7d']

def jsonSerializeList : List JValue → Chars
  | [] => []
  | [v] => jsonSerialize v
  | v :: rest => jsonSerialize v ++ ',' :: jsonSerializeList rest

def jsonSerializeFields : List (Chars × JValue) → Chars
  | [] => []
  | [(k, v)] => '"' :: k ++ '"' :: ':' :: jsonSerialize v
  | (k, v) :: rest => '"' :: k ++ '"' :: ':' :: jsonSerialize v ++ ',' :: jsonSerializeFields rest

end

/-- The segment loop of extractJSONKey: walk the decoded value one
segment at a time, tracking the zero-based segment index for
diagnostics. -/
def extractLoop (keyPath : Chars) (index : Nat) (current : JValue) :
    List Chars → Except ExtractError JValue
  | [] => .ok current
  | key :: restKeys =>
    match current with
    | .obj fields =>
      match lookupField fields key with
      | some v => extractLoop keyPath (index + 1) v restKeys
      | none => .error (.keyNotFound keyPath key index)
    | _ => .error (.notObject keyPath key index)

/-- extractJSONKey from pkg/backend/utils.go, applied to an
already-decoded JSON object (a non-object payload fails
json.Unmarshal before this logic runs): walk the dotted keyPath, then
convert the final value — strings verbatim, null is an error, anything
else re-serialized to JSON text. -/
def extractJSONKey (fields : List (Chars × JValue)) (keyPath : Chars) :
    Except ExtractError Chars :=
  match extractLoop keyPath 0 (.obj fields) (splitDots keyPath) with
  | .error e => .error e
  | .ok (.str s) => .ok s
  | .ok .null => .error (.nullValue keyPath)
  | .ok v => .ok (jsonSerialize v)

/-- Reference walk used to state the specification of extractJSONKey:
plain path lookup with no diagnostics. -/
def walkPath : JValue → List Chars → Option JValue
  | v, [] => some v
  | .obj fields, key :: rest =>
    match lookupField fields key with
    | some v => walkPath v rest
    | none => none
  | _, _ :: _ => none

/-! ## Cloud backends (pkg/backend/aws.go, gcp.go, azure.go) -/

/-- extractJSONKey of the cloud backends applied to a raw string
payload: decode models json.Unmarshal into a string-keyed map (none for
invalid JSON or a non-object document), then the extraction walk runs;
the formatted Go error messages are abstracted to fixed texts. -/
def extractJSONKeyStr (decode : Chars → Option (List (Chars × JValue)))
    (secretValue keyPath : Chars) : Except Chars Chars :=
  match decode secretValue with
  | none =>
    .error (str "failed to parse secret value as JSON for key extraction '" ++ keyPath ++ str "'")
  | some fields =>
    match extractJSONKey fields keyPath with
    | .ok v => .ok v
    | .error _ => .error (str "key extraction failed for '" ++ keyPath ++ str "'")

/-- The keyPath post-processing step written identically in the aws, gcp
and azure retrieval paths: an empty keyPath returns the raw payload,
otherwise JSON key extraction runs. -/
def cloudKeyPathParse (decode : Chars → Option (List (Chars × JValue)))
    (secretValue keyPath : Chars) : Except Chars Chars :=
  if keyPath = [] then .ok secretValue
  else extractJSONKeyStr decode secretValue keyPath

/-- External world of AWSBackend: json.Unmarshal and the two SDK calls
(Secrets Manager GetSecretValue and Parameter Store GetParameter, by
resource; nil-payload responses are folded into the error case). -/
structure AWSEnv where
  decode : Chars → Option (List (Chars × JValue))
  smFetch : Chars → Except Chars Chars
  psFetch : Chars → Except Chars Chars

/-- AWSBackend.RetrieveSecret: dispatch on the service, perform the SDK
call (counted as an external fetch), then keyPath post-processing. The
cache is neither read nor written on any path. -/
def awsRetrieveSecret (env : AWSEnv) (service resource keyPath : Chars)
    (st : CacheState) : Except Chars Chars × CacheState :=
  if service = str "sm" then
    match env.smFetch resource with
    | .error e =>
      (.error (str "failed to retrieve secret from AWS Secrets Manager for resource '"
          ++ resource ++ str "': " ++ e),
       { st with fetchCount := st.fetchCount + 1 })
    | .ok secretValue =>
      (cloudKeyPathParse env.decode secretValue keyPath,
       { st with fetchCount := st.fetchCount + 1 })
  else if service = str "ps" then
    match env.psFetch resource with
    | .error e =>
      (.error (str "failed to retrieve parameter from AWS Parameter Store for resource '"
          ++ resource ++ str "': " ++ e),
       { st with fetchCount := st.fetchCount + 1 })
    | .ok paramValue =>
      (cloudKeyPathParse env.decode paramValue keyPath,
       { st with fetchCount := st.fetchCount + 1 })
  else
    (.error (str "unsupported AWS service '" ++ service ++ str "'"), st)

/-- External world of GCPBackend: json.Unmarshal, the project id found
in the environment (empty when unset), and the AccessSecretVersion SDK
call by full secret name. -/
structure GCPEnv where
  decode : Chars → Option (List (Chars × JValue))
  projectID : Chars
  fetch : Chars → Except Chars Chars

/-- normalizeSecretName from gcp.go: full paths pass through, a
project/secret pair or a bare name is expanded to the full
projects/../secrets/../versions/latest form. -/
def normalizeSecretName (projectID resource : Chars) : Chars :=
  if (str "projects/").isPrefixOf resource then resource
  else if containsSub (str "/") resource ∧ ¬containsSub (str "projects/") resource then
    match splitOnce (str "/") resource with
    | some (proj, name) =>
      str "projects/" ++ proj ++ str "/secrets/" ++ name ++ str "/versions/latest"
    | none => resource
  else if projectID = [] then resource
  else str "projects/" ++ projectID ++ str "/secrets/" ++ resource ++ str "/versions/latest"

/-- Cache key of the GCP backend, fmt.Sprintf("gcp:sm:%s", secretName):
excludes keyPath. -/
def gcpCacheKey (projectID resource : Chars) : Chars :=
  str "gcp:sm:" ++ normalizeSecretName projectID resource

/-- GCPBackend.RetrieveSecret: only the sm service exists; on a hit the
cached raw payload is post-processed, on a miss the SDK call runs
(counted) and the raw payload is cached before post-processing. -/
def gcpRetrieveSecret (env : GCPEnv) (service resource keyPath : Chars)
    (st : CacheState) : Except Chars Chars × CacheState :=
  if service = str "sm" then
    match mapGet st.entries (gcpCacheKey env.projectID resource) with
    | some cached => (cloudKeyPathParse env.decode cached keyPath, st)
    | none =>
      match env.fetch (normalizeSecretName env.projectID resource) with
      | .error e =>
        (.error (str "failed to retrieve secret from GCP Secret Manager for resource '"
            ++ resource ++ str "': " ++ e),
         { st with fetchCount := st.fetchCount + 1 })
      | .ok secretValue =>
        (cloudKeyPathParse env.decode secretValue keyPath,
         { entries := mapSet st.entries (gcpCacheKey env.projectID resource) secretValue,
           fetchCount := st.fetchCount + 1 })
  else
    (.error (str "unsupported GCP service '" ++ service ++ str "'"), st)

/-- strings.Split(s, slash): full split used by the Azure resource
format. -/
def splitSlashes : Chars → List Chars
  | [] => [[]]
  | c :: cs =>
    if c = '/' then [] :: splitSlashes cs
    else
      match splitSlashes cs with
      | l :: ls => (c :: l) :: ls
      | [] => [[c]]

/-- parseKeyVaultResource from azure.go: vault-name/secret-name with an
optional version segment. -/
def parseKeyVaultResource (resource : Chars) : Option (Chars × Chars × Chars) :=
  match splitSlashes resource with
  | [vaultName, secretName] => some (vaultName, secretName, [])
  | [vaultName, secretName, version] => some (vaultName, secretName, version)
  | _ => none

/-- Cache key of the Azure backend: azure:kv:vault/secret with the
version appended when present; excludes keyPath. -/
def azureCacheKey (vaultName secretName version : Chars) : Chars :=
  if version = [] then str "azure:kv:" ++ vaultName ++ str "/" ++ secretName
  else str "azure:kv:" ++ vaultName ++ str "/" ++ secretName ++ str "/" ++ version

/-- External world of AzureBackend: json.Unmarshal and the GetSecret
SDK call by vault, secret and version (empty version means latest;
client-creation failures are folded into the fetch error). -/
structure AzureEnv where
  decode : Chars → Option (List (Chars × JValue))
  fetch : Chars → Chars → Chars → Except Chars Chars

/-- AzureBackend.RetrieveSecret: only the kv service exists; the
resource is parsed into vault, secret and optional version, then the
same cache-first discipline as the other cached backends applies. -/
def azureRetrieveSecret (env : AzureEnv) (service resource keyPath : Chars)
    (st : CacheState) : Except Chars Chars × CacheState :=
  if service = str "kv" then
    match parseKeyVaultResource resource with
    | none =>
      (.error (str "invalid Key Vault resource format: " ++ resource), st)
    | some (vaultName, secretName, version) =>
      match mapGet st.entries (azureCacheKey vaultName secretName version) with
      | some cached => (cloudKeyPathParse env.decode cached keyPath, st)
      | none =>
        match env.fetch vaultName secretName version with
        | .error e =>
          (.error (str "failed to retrieve secret '" ++ secretName
              ++ str "' from Azure Key Vault '" ++ vaultName ++ str "': " ++ e),
           { st with fetchCount := st.fetchCount + 1 })
        | .ok secretValue =>
          (cloudKeyPathParse env.decode secretValue keyPath,
           { entries := mapSet st.entries (azureCacheKey vaultName secretName version) secretValue,
             fetchCount := st.fetchCount + 1 })
  else
    (.error (str "unsupported Azure service '" ++ service ++ str "'"), st)

/-! ## Concrete instances used by witnesses and counterexamples -/

/-- Serialization of a SecretSource back to the design document's address
grammar backend : [service :] resource [::: keyPath] (the repository
itself never re-serializes; this follows the specification's grammar). -/
def serializeAddress (src : SecretSource) : Chars :=
  src.backend ++ str ":"
    ++ (if src.backend = str "git" then [] else src.service ++ str ":")
    ++ src.resource
    ++ (if src.keyPath = [] then [] else str ":::" ++ src.keyPath)

/-- The mock git backend of the repository's processor tests: fixed
username testuser and password testpass123. -/
def mockGitBackend : Backend := fun _service _resource keyPath =>
  if keyPath = str "username" then .ok (str "testuser")
  else if keyPath = str "password" then .ok (str "testpass123")
  else .error (str "key not found")

/-- A processor with only the mock git backend registered. -/
def gitOnlyProcessor : SecretProcessor := ⟨[(str "git", mockGitBackend)]⟩

/-- A credential helper environment answering every request with a fixed
two-line key=value response. -/
def gitTestEnv : GitEnv := ⟨fun _ _ => .ok (str "username=u\npassword=p\n")⟩

/-- A fixed JSON credential payload used by the cloud-backend tests. -/
def jsonCredsPayload : Chars :=
  str "\x7b\"username\":\"u\",\"password\":\"p\"\x7d"

/-- The decoded form of jsonCredsPayload. -/
def jsonCredsFields : List (Chars × JValue) :=
  [(str "username", .str (str "u")), (str "password", .str (str "p"))]

/-- json.Unmarshal restricted to the fixed test payload. -/
def mockDecode : Chars → Option (List (Chars × JValue)) :=
  fun payload => if payload = jsonCredsPayload then some jsonCredsFields else none

/-- An AWS environment whose SDK calls always return the fixed payload. -/
def awsTestEnv : AWSEnv :=
  ⟨mockDecode, fun _ => .ok jsonCredsPayload, fun _ => .ok jsonCredsPayload⟩

/-- A GCP environment (no project id) whose SDK call always returns the
fixed payload. -/
def gcpTestEnv : GCPEnv := ⟨mockDecode, [], fun _ => .ok jsonCredsPayload⟩

/-- An Azure environment whose SDK call always returns the fixed
payload. -/
def azureTestEnv : AzureEnv := ⟨mockDecode, fun _ _ _ => .ok jsonCredsPayload⟩

/-- The decoded JSON object of the specification's key-extraction
example. -/
def dbCredsFields : List (Chars × JValue) :=
  [(str "database", .obj [(str "password", .str (str "dbpass"))])]

/-! ## Structural lemmas about first-occurrence splitting -/

theorem splitOnce_structure (sep s l r : Chars) (h : splitOnce sep s = some (l, r)) :
    s = l ++ sep ++ r := by
  induction s generalizing l r with
  | nil => simp [splitOnce] at h
  | cons c cs ih =>
    rw [splitOnce] at h
    by_cases hp : sep.isPrefixOf (c :: cs)
    · rw [if_pos hp] at h
      obtain ⟨t, ht⟩ := List.isPrefixOf_iff_prefix.mp hp
      have hd : (c :: cs).drop sep.length = t := by
        rw [← ht]; exact List.drop_left sep t
      rw [hd] at h
      cases h
      simp [← ht]
    · rw [if_neg hp] at h
      cases hcs : splitOnce sep cs with
      | none => rw [hcs] at h; cases h
      | some p =>
        rw [hcs] at h
        cases h
        simp [ih p.1 p.2 (by rw [hcs])]

theorem splitOnce_none_of_not_contains (sep s : Chars) (h : containsSub sep s = false) :
    splitOnce sep s = none := by
  unfold containsSub at h
  cases hs : splitOnce sep s with
  | none => rfl
  | some p => rw [hs] at h; cases h

theorem containsSub_count_le (sep s : Chars) (h : containsSub sep s = true) :
    countColon sep ≤ countColon s := by
  unfold containsSub at h
  cases hs : splitOnce sep s with
  | none => rw [hs] at h; cases h
  | some p =>
    have hst := splitOnce_structure sep s p.1 p.2 hs
    rw [hst]
    unfold countColon
    simp [List.count_append]
    omega

theorem not_containsSub_of_count_lt (sep s : Chars) (h : countColon s < countColon sep) :
    containsSub sep s = false := by
  cases hc : containsSub sep s with
  | false => rfl
  | true => exact absurd (containsSub_count_le sep s hc) (by omega)

theorem splitOnce_cons_none (sep : Chars) (c : Char) (t : Chars)
    (h : splitOnce sep (c :: t) = none) :
    sep.isPrefixOf (c :: t) = false ∧ splitOnce sep t = none := by
  rw [splitOnce] at h
  by_cases hp : sep.isPrefixOf (c :: t)
  · rw [if_pos hp] at h; cases h
  · rw [if_neg hp] at h
    refine ⟨Bool.eq_false_iff.mpr hp, ?_⟩
    cases hcs : splitOnce sep t with
    | none => rfl
    | some p => rw [hcs] at h; cases h

theorem countColon_cons_zero {c : Char} {t : Chars} (h : countColon (c :: t) = 0) :
    c ≠ ':' ∧ countColon t = 0 := by
  unfold countColon at *
  rw [List.count_cons] at h
  constructor
  · intro hc; subst hc; simp at h
  · omega

theorem splitOnce_first_colon (a b : Chars) (ha : countColon a = 0) :
    splitOnce (str ":") (a ++ ':' :: b) = some (a, b) := by
  induction a with
  | nil => simp [splitOnce, str, List.isPrefixOf]
  | cons c t ih =>
    obtain ⟨hc, ht⟩ := countColon_cons_zero ha
    show splitOnce (str ":") (c :: (t ++ ':' :: b)) = some (c :: t, b)
    rw [splitOnce]
    have hp : (str ":").isPrefixOf (c :: (t ++ ':' :: b)) = false := by
      simp [str, List.isPrefixOf]
      exact fun hcc => hc hcc.symm
    rw [if_neg (by simp [hp])]
    rw [ih ht]

theorem lastIsColon_cons_false (c : Char) (t : Chars) (h : lastIsColon (c :: t) = false) :
    lastIsColon t = false := by
  cases t with
  | nil => rfl
  | cons d t2 =>
    unfold lastIsColon at h ⊢
    rwa [List.getLast?_cons_cons] at h

theorem lastIsColon_append (a b : Chars) (hb : b ≠ []) :
    lastIsColon (a ++ b) = lastIsColon b := by
  unfold lastIsColon
  rw [List.getLast?_append]
  cases hg : b.getLast? with
  | none => exact absurd (List.getLast?_eq_none_iff.mp hg) hb
  | some c => rfl

theorem splitOnce_sentinel (m rest : Chars)
    (hnc : containsSub (str ":::") m = false) (hlc : lastIsColon m = false) :
    splitOnce (str ":::") (m ++ (str ":::" ++ rest)) = some (m, rest) := by
  induction m with
  | nil => simp [splitOnce, str, List.isPrefixOf]
  | cons c t ih =>
    have hsp : splitOnce (str ":::") (c :: t) = none :=
      splitOnce_none_of_not_contains _ _ hnc
    obtain ⟨hp0, htnone⟩ := splitOnce_cons_none _ _ _ hsp
    have hnct : containsSub (str ":::") t = false := by
      unfold containsSub; rw [htnone]; rfl
    have hlct : lastIsColon t = false := lastIsColon_cons_false c t hlc
    show splitOnce (str ":::") (c :: (t ++ (str ":::" ++ rest))) = some (c :: t, rest)
    rw [splitOnce]
    have hp : (str ":::").isPrefixOf (c :: (t ++ (str ":::" ++ rest))) = false := by
      cases t with
      | nil =>
        have hc : c ≠ ':' := by
          simp [lastIsColon] at hlc
          exact fun hcc => hlc (by simp [hcc])
        simp [str, List.isPrefixOf]
        exact fun hcc => absurd hcc.symm hc
      | cons d t2 =>
        cases t2 with
        | nil =>
          have hd : d ≠ ':' := by
            simp [lastIsColon] at hlc
            exact fun hdd => hlc (by simp [hdd])
          simp [str, List.isPrefixOf]
          intro _ hdd
          exact absurd hdd.symm hd
        | cons e t3 =>
          simp [str, List.isPrefixOf] at hp0 ⊢
          intro h1 h2 h3
          exact hp0 h1 h2 h3
    rw [if_neg (by simp [hp])]
    rw [ih hnct hlct]

theorem splitOnce_triple_append_none (a b : Chars)
    (ha : containsSub (str ":::") a = false)
    (hb : containsSub (str ":::") b = false)
    (hb0 : b.head? ≠ some ':') :
    splitOnce (str ":::") (a ++ b) = none := by
  induction a with
  | nil => simpa using splitOnce_none_of_not_contains _ _ hb
  | cons c t ih =>
    have hsp : splitOnce (str ":::") (c :: t) = none :=
      splitOnce_none_of_not_contains _ _ ha
    obtain ⟨hp0, htnone⟩ := splitOnce_cons_none _ _ _ hsp
    have hnct : containsSub (str ":::") t = false := by
      unfold containsSub; rw [htnone]; rfl
    show splitOnce (str ":::") (c :: (t ++ b)) = none
    rw [splitOnce]
    have hp : (str ":::").isPrefixOf (c :: (t ++ b)) = false := by
      cases t with
      | nil =>
        cases b with
        | nil => simp [str, List.isPrefixOf]
        | cons b0 b1 =>
          cases b1 with
          | nil => simp [str, List.isPrefixOf]
          | cons b2 b3 =>
            simp [str, List.isPrefixOf]
            intro _ hb0eq _
            subst hb0eq
            exact hb0 rfl
      | cons d t2 =>
        cases t2 with
        | nil =>
          cases b with
          | nil => simp [str, List.isPrefixOf]
          | cons b0 b1 =>
            simp [str, List.isPrefixOf]
            intro _ _ hb0eq
            subst hb0eq
            exact hb0 rfl
        | cons e t3 =>
          simp [str, List.isPrefixOf] at hp0 ⊢
          intro h1 h2 h3
          exact hp0 h1 h2 h3
    rw [if_neg (by simp [hp])]
    rw [ih hnct]

theorem splitOnce_git_none (R : Chars)
    (h2 : (str "::").isPrefixOf R = false)
    (h3 : containsSub (str ":::") R = false) :
    splitOnce (str ":::") (str "git:" ++ R) = none := by
  have hR' : splitOnce [':', ':', ':'] R = none := splitOnce_none_of_not_contains _ _ h3
  have h2x : List.isPrefixOf [':', ':'] R = false := h2
  have h2p : ¬([':', ':'] <+: R) := by
    intro hcc
    have h4 := List.isPrefixOf_iff_prefix.mpr hcc
    rw [h2x] at h4
    cases h4
  show splitOnce (str ":::") ('g' :: 'i' :: 't' :: ':' :: R) = none
  simp [splitOnce, str, List.isPrefixOf, h2p, hR']

theorem parseMain_keyPath (m kp : Chars) (src : SecretSource)
    (h : parseMain m kp = .ok src) : src.keyPath = kp := by
  unfold parseMain parseBody at h
  repeat' split at h
  all_goals cases h
  all_goals rfl

theorem parseMain_malformed (m kp : Chars) (h : splitOnce (str ":") m = none) :
    parseMain m kp = .error (.malformedAddress m) := by
  unfold parseMain
  rw [h]

/-! ## Claim theorems: address parser -/

/-- Claim C4: ParseAddress splits off the keyPath only at the first
occurrence of the ::: sentinel and preserves single colons inside the
resource: the AWS ARN address parses with service sm, the full ARN as
resource and empty keyPath, and the GCP address with an embedded version
colon parses with resource proj/secret:2 and keyPath private_key_id. -/
theorem c4_colon_robustness :
    parseSecretString (str "aws:sm:arn:aws:secretsmanager:us-east-1:123456789012:secret:my-app/db-creds-ABCDEF")
      = .ok ⟨str "aws", str "sm",
             str "arn:aws:secretsmanager:us-east-1:123456789012:secret:my-app/db-creds-ABCDEF", []⟩
    ∧ parseSecretString (str "gcp:sm:proj/secret:2:::private_key_id")
      = .ok ⟨str "gcp", str "sm", str "proj/secret:2", str "private_key_id"⟩ :=
  ⟨rfl, rfl⟩

/-- Claim C9: an input whose part before the first ::: contains no colon
fails with the malformed-address error (and so never yields a
SecretSource). -/
theorem c9_missing_backend (s : Chars) (h : countColon (mainStringOf s) = 0) :
    parseSecretString s = .error (.malformedAddress (mainStringOf s)) := by
  have hcolon : splitOnce (str ":") (mainStringOf s) = none := by
    apply splitOnce_none_of_not_contains
    apply not_containsSub_of_count_lt
    rw [h]
    decide
  unfold parseSecretString
  unfold mainStringOf at hcolon h ⊢
  cases hsp : splitOnce (str ":::") s with
  | none => rw [hsp] at hcolon; exact parseMain_malformed s [] hcolon
  | some p => rw [hsp] at hcolon; exact parseMain_malformed p.1 p.2 hcolon

/-- Claim C9 witness at the specification's example input my-secret. -/
theorem c9_witness :
    parseSecretString (str "my-secret") = .error (.malformedAddress (str "my-secret")) :=
  c9_missing_backend (str "my-secret") (by decide)

/-- Claim C10 counterexample: git:ab:: contains no :::, yet appending
::: does not preserve the parse. The sentinel merges with the trailing
colons, so the resource loses its colons and the keyPath becomes ::
instead of staying empty. -/
theorem c10_counterexample :
    containsSub (str ":::") (str "git:ab::") = false
    ∧ parseSecretString (str "git:ab::") = .ok ⟨str "git", [], str "https://ab::", []⟩
    ∧ parseSecretString (str "git:ab::" ++ str ":::")
        = .ok ⟨str "git", [], str "https://ab", str "::"⟩ :=
  ⟨by decide, rfl, rfl⟩

/-- Claim C10 (amended): for every string s that contains no ::: and does
not end in a colon, appending ::: parses exactly as s itself, and any
successful parse of s carries an empty keyPath — so a trailing :::
selects the same (multi-value, for git) interpretation as its absence. -/
theorem c10_trailing_sentinel (s : Chars)
    (h1 : containsSub (str ":::") s = false)
    (h2 : lastIsColon s = false) :
    parseSecretString (s ++ str ":::") = parseSecretString s
    ∧ (∀ src, parseSecretString s = .ok src → src.keyPath = []) := by
  have hsent := splitOnce_sentinel s [] h1 h2
  have hnone := splitOnce_none_of_not_contains _ _ h1
  constructor
  · unfold parseSecretString
    rw [show s ++ str ":::" = s ++ (str ":::" ++ []) by simp]
    rw [hsent, hnone]
  · intro src hsrc
    unfold parseSecretString at hsrc
    rw [hnone] at hsrc
    exact parseMain_keyPath _ _ _ hsrc

/-- Claim C10 witness at the git:host address. -/
theorem c10_witness :
    parseSecretString (str "git:host" ++ str ":::") = parseSecretString (str "git:host")
    ∧ (∀ src, parseSecretString (str "git:host") = .ok src → src.keyPath = []) :=
  c10_trailing_sentinel (str "git:host") (by decide) (by decide)

/-- Claim C5 counterexample: the components (aws, sm, db::, k) satisfy
the stated validity constraint (the resource db:: contains no :::), yet
the address built from them parses to resource db and keyPath ::k, not
to the original components. -/
theorem c5_counterexample :
    containsSub (str ":::") (str "db::") = false
    ∧ parseSecretString (str "aws" ++ str ":" ++ str "sm" ++ str ":" ++ str "db::" ++ str ":::" ++ str "k")
        = .ok ⟨str "aws", str "sm", str "db", str "::k"⟩
    ∧ SecretSource.mk (str "aws") (str "sm") (str "db") (str "::k")
        ≠ ⟨str "aws", str "sm", str "db::", str "k"⟩ :=
  ⟨by decide, rfl, by decide⟩

/-- Claim C5 (amended): for a cloud backend, a colon-free service, and a
nonempty resource that contains no :::, does not begin with a colon and
does not end with a colon, ParseAddress recovers exactly the four
components of backend:service:resource:::keyPath, and re-serializing the
parsed SecretSource and re-parsing yields the same SecretSource. -/
theorem c5_roundtrip (B S R kp : Chars)
    (hB : B = str "aws" ∨ B = str "gcp" ∨ B = str "azure")
    (hS : countColon S = 0)
    (hR3 : containsSub (str ":::") R = false)
    (hRne : R ≠ [])
    (hR0 : R.head? ≠ some ':')
    (hRlast : lastIsColon R = false) :
    parseSecretString (B ++ str ":" ++ S ++ str ":" ++ R ++ str ":::" ++ kp) = .ok ⟨B, S, R, kp⟩
    ∧ parseSecretString (serializeAddress ⟨B, S, R, kp⟩) = .ok ⟨B, S, R, kp⟩ := by
  have hBcount : countColon B = 0 := by
    rcases hB with h | h | h <;> subst h <;> decide
  have hBgit : ¬(B = str "git") := by
    rcases hB with h | h | h <;> subst h <;> decide
  have hleft : containsSub (str ":::") (B ++ ':' :: (S ++ [':'])) = false := by
    apply not_containsSub_of_count_lt
    unfold countColon at hS hBcount ⊢
    simp [List.count_append, List.count_cons, hS, hBcount, str]
  have hm : containsSub (str ":::") (B ++ ':' :: (S ++ ':' :: R)) = false := by
    have hsplit := splitOnce_triple_append_none (B ++ ':' :: (S ++ [':'])) R hleft hR3 hR0
    have hassoc : (B ++ ':' :: (S ++ [':'])) ++ R = B ++ ':' :: (S ++ ':' :: R) := by simp
    unfold containsSub
    rw [← hassoc, hsplit]
    rfl
  have hlast : lastIsColon (B ++ ':' :: (S ++ ':' :: R)) = false := by
    have h1 : B ++ ':' :: (S ++ ':' :: R) = (B ++ ':' :: (S ++ [':'])) ++ R := by simp
    rw [h1, lastIsColon_append _ _ hRne]
    exact hRlast
  have hsent := splitOnce_sentinel (B ++ ':' :: (S ++ ':' :: R)) kp hm hlast
  have hmainparse : parseMain (B ++ ':' :: (S ++ ':' :: R)) kp = .ok ⟨B, S, R, kp⟩ := by
    unfold parseMain
    rw [splitOnce_first_colon B _ hBcount]
    show parseBody B (S ++ ':' :: R) kp (B ++ ':' :: (S ++ ':' :: R)) = .ok ⟨B, S, R, kp⟩
    unfold parseBody
    rw [if_neg hBgit, if_pos hB]
    rw [splitOnce_first_colon S R hS]
  have hfirst : parseSecretString ((B ++ ':' :: (S ++ ':' :: R)) ++ (str ":::" ++ kp))
      = .ok ⟨B, S, R, kp⟩ := by
    unfold parseSecretString
    rw [hsent]
    exact hmainparse
  constructor
  · rw [show B ++ str ":" ++ S ++ str ":" ++ R ++ str ":::" ++ kp
        = (B ++ ':' :: (S ++ ':' :: R)) ++ (str ":::" ++ kp) by simp [str]]
    exact hfirst
  · show parseSecretString (B ++ str ":"
        ++ (if B = str "git" then [] else S ++ str ":") ++ R
        ++ (if kp = [] then [] else str ":::" ++ kp)) = .ok ⟨B, S, R, kp⟩
    rw [if_neg hBgit]
    by_cases hkp : kp = []
    · subst hkp
      rw [if_pos rfl]
      rw [show B ++ str ":" ++ (S ++ str ":") ++ R ++ ([] : Chars)
          = B ++ ':' :: (S ++ ':' :: R) by simp [str]]
      unfold parseSecretString
      rw [splitOnce_none_of_not_contains _ _ hm]
      exact hmainparse
    · rw [if_neg hkp]
      rw [show B ++ str ":" ++ (S ++ str ":") ++ R ++ (str ":::" ++ kp)
          = (B ++ ':' :: (S ++ ':' :: R)) ++ (str ":::" ++ kp) by simp [str]]
      exact hfirst

/-- Claim C5 witness at the address aws:sm:db-creds:::username. -/
theorem c5_witness :
    parseSecretString (str "aws" ++ str ":" ++ str "sm" ++ str ":" ++ str "db-creds" ++ str ":::" ++ str "username")
      = .ok ⟨str "aws", str "sm", str "db-creds", str "username"⟩
    ∧ parseSecretString (serializeAddress ⟨str "aws", str "sm", str "db-creds", str "username"⟩)
      = .ok ⟨str "aws", str "sm", str "db-creds", str "username"⟩ :=
  c5_roundtrip (str "aws") (str "sm") (str "db-creds") (str "username")
    (Or.inl rfl) (by decide) (by decide) (by decide) (by decide) (by decide)

theorem goParseRest_ok_scheme (scheme rest sch : Chars)
    (h : goParseRest scheme rest = .ok sch) : sch = scheme := by
  unfold goParseRest at h
  repeat' split at h
  all_goals cases h
  all_goals rfl

theorem goParseCore_ok_scheme (u sch : Chars) (h : goParseCore u = .ok sch)
    (hne : sch ≠ []) :
    ∃ rest, goGetSchemeFrom true u = .ok (some (sch, rest)) := by
  unfold goParseCore at h
  by_cases hctl : hasCTL u = true
  · rw [if_pos hctl] at h
    cases h
  · rw [if_neg hctl] at h
    cases hg : goGetSchemeFrom true u with
    | error e =>
      rw [hg] at h
      cases h
    | ok res =>
      rw [hg] at h
      cases res with
      | none => exact absurd (goParseRest_ok_scheme [] (dropQuery u) sch h) hne
      | some p =>
        obtain ⟨scheme0, rest0⟩ := p
        have hs := goParseRest_ok_scheme scheme0 (dropQuery rest0) sch h
        subst hs
        exact ⟨rest0, rfl⟩

theorem goURLParse_ok_hasScheme (s sch : Chars) (h : goURLParse s = .ok sch)
    (hne : sch ≠ []) : goURLHasScheme s = true := by
  unfold goURLParse at h
  cases hsp : splitOnce (str "#") s with
  | none =>
    rw [hsp] at h
    obtain ⟨rest, hg⟩ := goParseCore_ok_scheme s sch h hne
    have hpf : preFragment s = s := by
      unfold preFragment
      rw [hsp]
    cases sch with
    | nil => exact absurd rfl hne
    | cons c tl =>
      unfold goURLHasScheme
      rw [hpf, hg]
  | some p =>
    obtain ⟨u, frag⟩ := p
    rw [hsp] at h
    cases hc : goParseCore u with
    | error e =>
      simp only [hc] at h
      cases h
    | ok scheme0 =>
      simp only [hc] at h
      have hsch : scheme0 = sch := by
        by_cases hf : frag = []
        · rw [if_pos hf] at h
          cases h
          rfl
        · rw [if_neg hf] at h
          by_cases he : escapesOK frag = true
          · rw [if_pos he] at h
            cases h
            rfl
          · rw [if_neg he] at h
            cases h
      subst hsch
      obtain ⟨rest, hg⟩ := goParseCore_ok_scheme u scheme0 hc hne
      have hpf : preFragment s = u := by
        unfold preFragment
        rw [hsp]
      cases scheme0 with
      | nil => exact absurd rfl hne
      | cons c tl =>
        unfold goURLHasScheme
        rw [hpf, hg]

/-- Claim C6 counterexample: the original biconditional fails in both
directions. For R = ::x (containing neither ::: nor ://) the leading
colons merge with the backend separator into the ::: sentinel, so git:R
fails with the malformed-address error although the normalized resource
https://::x has a scheme; and for R = host:x the parse fails URL
validation (non-numeric port) although https://host:x has a scheme. -/
theorem c6_counterexample :
    parseSecretString (str "git:" ++ str "::x") = .error (.malformedAddress (str "git"))
    ∧ goURLHasScheme (normalizeGitURL (str "::x")) = true
    ∧ (ParseError.malformedAddress (str "git")).isInvalidResource = false
    ∧ parseSecretString (str "git:" ++ str "host:x")
        = .error (.invalidGitURL (str "https://host:x"))
    ∧ goURLHasScheme (normalizeGitURL (str "host:x")) = true :=
  ⟨rfl, rfl, rfl, rfl, rfl⟩

/-- Claim C6 (amended): for every git address git:R where R contains no
::: and does not begin with ::, every parse failure is a
resource-validation error, a successful parse stores normalizeGitURL R
(https:// put in front when R lacks a scheme separator) as the resource,
and the parse fails whenever the resource still has no scheme after
normalization — but not only then: URL validation can also reject a
resource that has a scheme, as for git:host:x with its non-numeric port.
Bare host and user-at-host forms succeed with resources https://host and
https://user@host. -/
theorem c6_git_scheme (R : Chars)
    (h3 : containsSub (str ":::") R = false)
    (h2 : (str "::").isPrefixOf R = false) :
    (∀ e, parseSecretString (str "git:" ++ R) = .error e → e.isInvalidResource = true)
    ∧ (∀ src, parseSecretString (str "git:" ++ R) = .ok src
        → src = ⟨str "git", [], normalizeGitURL R, []⟩)
    ∧ (goURLHasScheme (normalizeGitURL R) = false →
        ∃ e, parseSecretString (str "git:" ++ R) = .error e)
    ∧ parseSecretString (str "git:host") = .ok ⟨str "git", [], str "https://host", []⟩
    ∧ parseSecretString (str "git:user@host")
        = .ok ⟨str "git", [], str "https://user@host", []⟩
    ∧ parseSecretString (str "git:host:x") = .error (.invalidGitURL (str "https://host:x"))
    ∧ goURLHasScheme (normalizeGitURL (str "host:x")) = true := by
  have hsent : splitOnce (str ":::") (str "git:" ++ R) = none := splitOnce_git_none R h2 h3
  have hsplit : splitOnce (str ":") (str "git:" ++ R) = some (str "git", R) :=
    splitOnce_first_colon (str "git") R (by decide)
  have hparse : parseSecretString (str "git:" ++ R) = parseBody (str "git") R [] (str "git:" ++ R) := by
    unfold parseSecretString
    rw [hsent]
    show parseMain (str "git:" ++ R) [] = _
    unfold parseMain
    rw [hsplit]
  have hbody : parseBody (str "git") R [] (str "git:" ++ R)
      = match goURLParse (normalizeGitURL R) with
        | .error _ => .error (.invalidGitURL (normalizeGitURL R))
        | .ok scheme =>
          if scheme = [] then .error (.invalidGitScheme (normalizeGitURL R))
          else .ok ⟨str "git", [], normalizeGitURL R, []⟩ := by
    unfold parseBody
    rw [if_pos rfl]
  refine ⟨?_, ?_, ?_, rfl, rfl, rfl, rfl⟩
  · intro e he
    rw [hparse, hbody] at he
    cases hu : goURLParse (normalizeGitURL R) with
    | error e2 =>
      simp only [hu] at he
      cases he
      rfl
    | ok scheme =>
      simp only [hu] at he
      by_cases hn : scheme = []
      · rw [if_pos hn] at he
        cases he
        rfl
      · rw [if_neg hn] at he
        cases he
  · intro src hsrc
    rw [hparse, hbody] at hsrc
    cases hu : goURLParse (normalizeGitURL R) with
    | error e2 =>
      simp only [hu] at hsrc
      cases hsrc
    | ok scheme =>
      simp only [hu] at hsrc
      by_cases hn : scheme = []
      · rw [if_pos hn] at hsrc
        cases hsrc
      · rw [if_neg hn] at hsrc
        cases hsrc
        rfl
  · intro hns
    rw [hparse, hbody]
    cases hu : goURLParse (normalizeGitURL R) with
    | error e2 =>
      exact ⟨.invalidGitURL (normalizeGitURL R), rfl⟩
    | ok scheme =>
      cases scheme with
      | nil =>
        exact ⟨.invalidGitScheme (normalizeGitURL R), rfl⟩
      | cons c tl =>
        have htrue := goURLParse_ok_hasScheme (normalizeGitURL R) (c :: tl) hu (by simp)
        rw [htrue] at hns
        cases hns

/-- Claim C6 witness at the bare host example.com. -/
theorem c6_witness :
    (∀ e, parseSecretString (str "git:" ++ str "example.com") = .error e
        → e.isInvalidResource = true)
    ∧ (∀ src, parseSecretString (str "git:" ++ str "example.com") = .ok src
        → src = ⟨str "git", [], normalizeGitURL (str "example.com"), []⟩)
    ∧ (goURLHasScheme (normalizeGitURL (str "example.com")) = false →
        ∃ e, parseSecretString (str "git:" ++ str "example.com") = .error e)
    ∧ parseSecretString (str "git:host") = .ok ⟨str "git", [], str "https://host", []⟩
    ∧ parseSecretString (str "git:user@host")
        = .ok ⟨str "git", [], str "https://user@host", []⟩
    ∧ parseSecretString (str "git:host:x") = .error (.invalidGitURL (str "https://host:x"))
    ∧ goURLHasScheme (normalizeGitURL (str "host:x")) = true :=
  c6_git_scheme (str "example.com") (by decide) (by decide)

/-! ## Claim theorems: processor -/

/-- Claim C1: the git multi-credential branch of ProcessSecrets emits
the three derived entries, but it also keeps the original variable name
bound to the secretinit-prefixed address, so the key API is present in
the returned map — contradicting the repository's own test
TestGitMultiCredentialMode_OriginalVariableNotLeftBehind, which requires
API to be absent. -/
theorem c1_multi_mode_keeps_original :
    processSecrets gitOnlyProcessor [(str "API", str "git:https://user@api.example.com")]
      = .ok [(str "API", str "secretinit:git:https://user@api.example.com"),
             (str "API_URL", str "https://api.example.com"),
             (str "API_USER", str "testuser"),
             (str "API_PASS", str "testpass123")]
    ∧ mapGet [(str "API", str "secretinit:git:https://user@api.example.com"),
              (str "API_URL", str "https://api.example.com"),
              (str "API_USER", str "testuser"),
              (str "API_PASS", str "testpass123")] (str "API")
        = some (str "secretinit:git:https://user@api.example.com") :=
  ⟨rfl, rfl⟩

theorem processOne_error_indep (p : SecretProcessor) (n a : Chars) (e : ProcError)
    (acc acc' : List (Chars × Chars)) (h : processOne p n a acc = .error e) :
    processOne p n a acc' = .error e := by
  unfold processOne at h ⊢
  cases hp : parseSecretString a with
  | error pe => simp only [hp] at h ⊢; exact h
  | ok src =>
    simp only [hp] at h ⊢
    cases hb : lookupBackend p.backends src.backend with
    | none => simp only [hb] at h ⊢; exact h
    | some b =>
      simp only [hb] at h ⊢
      by_cases haws : (src.backend = str "aws" ∧ ¬src.service = str "sm" ∧ ¬src.service = str "ps")
      · rw [if_pos haws] at h ⊢; exact h
      · rw [if_neg haws] at h ⊢
        by_cases hgit : (src.backend = str "git" ∧ src.keyPath = [])
        · rw [if_pos hgit] at h ⊢
          cases hu : b src.service src.resource (str "username") with
          | error msg => simp only [hu] at h ⊢; exact h
          | ok username =>
            simp only [hu] at h ⊢
            cases hw : b src.service src.resource (str "password") with
            | error msg => simp only [hw] at h ⊢; exact h
            | ok password => simp only [hw] at h; cases h
        · rw [if_neg hgit] at h ⊢
          cases hv : b src.service src.resource (singleModeKeyPath src.backend src.keyPath) with
          | error msg => simp only [hv] at h ⊢; exact h
          | ok v => simp only [hv] at h; cases h

/-- Claim C3: if any variable of the batch fails to resolve, the whole
ProcessSecrets call returns an error — the Except result carries no
partial map — and for a single-binding batch it returns exactly that
variable's error. -/
theorem c3_fail_fast (p : SecretProcessor) (vars : List (Chars × Chars))
    (n a : Chars) (e : ProcError)
    (hmem : (n, a) ∈ vars)
    (hfail : processOne p n a [] = .error e) :
    (∃ e2, processSecrets p vars = .error e2)
    ∧ (vars = [(n, a)] → processSecrets p vars = .error e) := by
  constructor
  · have haux : ∀ (l : List (Chars × Chars)) (acc : List (Chars × Chars)),
        (n, a) ∈ l → ∃ e2, processSecretsAux p l acc = .error e2 := by
      intro l
      induction l with
      | nil => intro acc hm; cases hm
      | cons hd tl ih =>
        intro acc hm
        obtain ⟨n', a'⟩ := hd
        unfold processSecretsAux
        cases ho : processOne p n' a' acc with
        | error e' => exact ⟨e', rfl⟩
        | ok acc2 =>
          rcases List.mem_cons.mp hm with heq | hm2
          · injection heq with hn ha
            subst hn
            subst ha
            have hcontra := processOne_error_indep p n a e [] acc hfail
            rw [hcontra] at ho
            cases ho
          · obtain ⟨e2, he2⟩ := ih acc2 hm2
            exact ⟨e2, he2⟩
    exact haux vars [] hmem
  · intro hv
    subst hv
    unfold processSecrets processSecretsAux
    rw [hfail]

/-- Claim C3 witness: a single unresolvable variable (unknown backend
tag) aborts the whole call with that variable's error. -/
theorem c3_witness :
    (∃ e2, processSecrets gitOnlyProcessor [(str "X", str "unknown:foo")] = .error e2)
    ∧ ([((str "X" : Chars), (str "unknown:foo" : Chars))] = [(str "X", str "unknown:foo")]
        → processSecrets gitOnlyProcessor [(str "X", str "unknown:foo")]
            = .error (.parse (str "X") (.unsupportedBackend (str "unknown")))) :=
  c3_fail_fast gitOnlyProcessor [(str "X", str "unknown:foo")] (str "X") (str "unknown:foo")
    (.parse (str "X") (.unsupportedBackend (str "unknown")))
    (List.mem_singleton.mpr rfl) rfl

/-- Claim C8: a git variable in single-value mode (nonempty keyPath)
yields exactly one entry, the variable name bound to the retrieved
value, with no URL, USER or PASS companions; and the single-credential
branch defaults an empty git keyPath to password. -/
theorem c8_single_mode (p : SecretProcessor) (n a : Chars) (src : SecretSource)
    (b : Backend) (v : Chars)
    (hparse : parseSecretString a = .ok src)
    (hgit : src.backend = str "git")
    (hkp : src.keyPath ≠ [])
    (hb : lookupBackend p.backends src.backend = some b)
    (hcall : b src.service src.resource src.keyPath = .ok v) :
    processSecrets p [(n, a)] = .ok [(n, v)]
    ∧ singleModeKeyPath (str "git") [] = str "password" := by
  refine ⟨?_, rfl⟩
  unfold processSecrets processSecretsAux processOne
  simp only [hparse, hb]
  have haws : ¬(src.backend = str "aws" ∧ ¬src.service = str "sm" ∧ ¬src.service = str "ps") := by
    rintro ⟨h1, -⟩
    rw [hgit] at h1
    exact absurd h1 (by decide)
  rw [if_neg haws]
  have hgitmulti : ¬(src.backend = str "git" ∧ src.keyPath = []) := by
    rintro ⟨-, h2⟩
    exact hkp h2
  rw [if_neg hgitmulti]
  have hsk : singleModeKeyPath src.backend src.keyPath = src.keyPath := by
    unfold singleModeKeyPath
    rw [if_neg (fun hh => hkp hh.2)]
  rw [hsk, hcall]
  rfl

/-- Claim C8 witness: the specification's single-value example, via the
mock git backend. -/
theorem c8_witness :
    processSecrets gitOnlyProcessor [(str "TOKEN", str "git:https://api.example.com:::password")]
      = .ok [(str "TOKEN", str "testpass123")]
    ∧ singleModeKeyPath (str "git") [] = str "password" :=
  c8_single_mode gitOnlyProcessor (str "TOKEN") (str "git:https://api.example.com:::password")
    ⟨str "git", [], str "https://api.example.com", str "password"⟩ mockGitBackend (str "testpass123")
    rfl rfl (by decide) rfl rfl

/-! ## Claim theorems: cached git backend -/

theorem mapGet_mapSet_self (m : List (Chars × Chars)) (k v : Chars) :
    mapGet (mapSet m k v) k = some v := by
  induction m with
  | nil => simp [mapSet, mapGet]
  | cons hd tl ih =>
    obtain ⟨k', v'⟩ := hd
    unfold mapSet
    by_cases hk : k' = k
    · rw [if_pos hk]
      simp [mapGet]
    · rw [if_neg hk]
      unfold mapGet
      rw [if_neg hk]
      exact ih

theorem gitRetrieveSecret_hit (env : GitEnv) (service resource kp raw : Chars)
    (st : CacheState)
    (h : mapGet st.entries (gitCacheKey service resource) = some raw) :
    gitRetrieveSecret env service resource kp st = (parseGitCredential raw kp, st) := by
  simp only [gitRetrieveSecret]
  rw [h]

theorem runCalls_stable (step : Chars → CacheState → Except Chars Chars × CacheState)
    (f : Chars → Except Chars Chars) (st : CacheState)
    (hstep : ∀ kp, step kp st = (f kp, st)) :
    ∀ kps : List Chars, runCalls step kps st = (kps.map f, st) := by
  intro kps
  induction kps with
  | nil => rfl
  | cons kp rest ih =>
    simp only [runCalls]
    rw [hstep kp, ih]
    rfl

theorem gcpRetrieveSecret_hit (env : GCPEnv) (resource kp raw : Chars) (st : CacheState)
    (h : mapGet st.entries (gcpCacheKey env.projectID resource) = some raw) :
    gcpRetrieveSecret env (str "sm") resource kp st
      = (cloudKeyPathParse env.decode raw kp, st) := by
  unfold gcpRetrieveSecret
  rw [if_pos rfl, h]

theorem azureRetrieveSecret_hit (env : AzureEnv)
    (resource kp raw vaultName secretName version : Chars) (st : CacheState)
    (hres : parseKeyVaultResource resource = some (vaultName, secretName, version))
    (h : mapGet st.entries (azureCacheKey vaultName secretName version) = some raw) :
    azureRetrieveSecret env (str "kv") resource kp st
      = (cloudKeyPathParse env.decode raw kp, st) := by
  unfold azureRetrieveSecret
  rw [if_pos rfl]
  simp only [hres]
  rw [h]

theorem gitRetrieve_single_fetch (env : GitEnv) (service resource raw : Chars)
    (kps : List Chars) (st : CacheState)
    (hne : kps ≠ [])
    (hmiss : mapGet st.entries (gitCacheKey service resource) = none)
    (hfetch : env.fetch (parseGitURL resource).1 (parseGitURL resource).2 = .ok raw) :
    (runCalls (gitRetrieveSecret env service resource) kps st).1
        = kps.map (parseGitCredential raw)
    ∧ (runCalls (gitRetrieveSecret env service resource) kps st).2.fetchCount
        = st.fetchCount + 1
    ∧ mapGet (runCalls (gitRetrieveSecret env service resource) kps st).2.entries
        (gitCacheKey service resource) = some raw := by
  cases kps with
  | nil => exact absurd rfl hne
  | cons kp0 rest =>
    have h1 : gitRetrieveSecret env service resource kp0 st
        = (parseGitCredential raw kp0,
           ⟨mapSet st.entries (gitCacheKey service resource) raw, st.fetchCount + 1⟩) := by
      simp only [gitRetrieveSecret]
      rw [hmiss, hfetch]
    have hcached : mapGet
        (mapSet st.entries (gitCacheKey service resource) raw)
        (gitCacheKey service resource) = some raw :=
      mapGet_mapSet_self _ _ _
    simp only [runCalls]
    rw [h1]
    rw [runCalls_stable (gitRetrieveSecret env service resource) (parseGitCredential raw)
        ⟨mapSet st.entries (gitCacheKey service resource) raw, st.fetchCount + 1⟩
        (fun kp => gitRetrieveSecret_hit env service resource kp raw _ hcached) rest]
    exact ⟨rfl, rfl, hcached⟩

theorem gcpRetrieve_single_fetch (env : GCPEnv) (resource raw : Chars)
    (kps : List Chars) (st : CacheState)
    (hne : kps ≠ [])
    (hmiss : mapGet st.entries (gcpCacheKey env.projectID resource) = none)
    (hfetch : env.fetch (normalizeSecretName env.projectID resource) = .ok raw) :
    (runCalls (gcpRetrieveSecret env (str "sm") resource) kps st).1
        = kps.map (cloudKeyPathParse env.decode raw)
    ∧ (runCalls (gcpRetrieveSecret env (str "sm") resource) kps st).2.fetchCount
        = st.fetchCount + 1
    ∧ mapGet (runCalls (gcpRetrieveSecret env (str "sm") resource) kps st).2.entries
        (gcpCacheKey env.projectID resource) = some raw := by
  cases kps with
  | nil => exact absurd rfl hne
  | cons kp0 rest =>
    have h1 : gcpRetrieveSecret env (str "sm") resource kp0 st
        = (cloudKeyPathParse env.decode raw kp0,
           ⟨mapSet st.entries (gcpCacheKey env.projectID resource) raw, st.fetchCount + 1⟩) := by
      unfold gcpRetrieveSecret
      rw [if_pos rfl, hmiss, hfetch]
    have hcached : mapGet
        (mapSet st.entries (gcpCacheKey env.projectID resource) raw)
        (gcpCacheKey env.projectID resource) = some raw :=
      mapGet_mapSet_self _ _ _
    simp only [runCalls]
    rw [h1]
    rw [runCalls_stable (gcpRetrieveSecret env (str "sm") resource)
        (cloudKeyPathParse env.decode raw)
        ⟨mapSet st.entries (gcpCacheKey env.projectID resource) raw, st.fetchCount + 1⟩
        (fun kp => gcpRetrieveSecret_hit env resource kp raw _ hcached) rest]
    exact ⟨rfl, rfl, hcached⟩

theorem azureRetrieve_single_fetch (env : AzureEnv)
    (resource raw vaultName secretName version : Chars)
    (kps : List Chars) (st : CacheState)
    (hne : kps ≠ [])
    (hres : parseKeyVaultResource resource = some (vaultName, secretName, version))
    (hmiss : mapGet st.entries (azureCacheKey vaultName secretName version) = none)
    (hfetch : env.fetch vaultName secretName version = .ok raw) :
    (runCalls (azureRetrieveSecret env (str "kv") resource) kps st).1
        = kps.map (cloudKeyPathParse env.decode raw)
    ∧ (runCalls (azureRetrieveSecret env (str "kv") resource) kps st).2.fetchCount
        = st.fetchCount + 1
    ∧ mapGet (runCalls (azureRetrieveSecret env (str "kv") resource) kps st).2.entries
        (azureCacheKey vaultName secretName version) = some raw := by
  cases kps with
  | nil => exact absurd rfl hne
  | cons kp0 rest =>
    have h1 : azureRetrieveSecret env (str "kv") resource kp0 st
        = (cloudKeyPathParse env.decode raw kp0,
           ⟨mapSet st.entries (azureCacheKey vaultName secretName version) raw,
            st.fetchCount + 1⟩) := by
      unfold azureRetrieveSecret
      rw [if_pos rfl]
      simp only [hres]
      rw [hmiss, hfetch]
    have hcached : mapGet
        (mapSet st.entries (azureCacheKey vaultName secretName version) raw)
        (azureCacheKey vaultName secretName version) = some raw :=
      mapGet_mapSet_self _ _ _
    simp only [runCalls]
    rw [h1]
    rw [runCalls_stable (azureRetrieveSecret env (str "kv") resource)
        (cloudKeyPathParse env.decode raw)
        ⟨mapSet st.entries (azureCacheKey vaultName secretName version) raw, st.fetchCount + 1⟩
        (fun kp => azureRetrieveSecret_hit env resource kp raw vaultName secretName version
          _ hres hcached) rest]
    exact ⟨rfl, rfl, hcached⟩

/-- Claim C2 counterexample for the original every-backend claim: the
AWS backend never consults the shared cache. Two Secrets Manager calls
for the same resource with distinct keyPaths each perform an external
fetch (the counter ends at 2, not 1) and the cache stays empty. -/
theorem c2_counterexample :
    (runCalls (awsRetrieveSecret awsTestEnv (str "sm") (str "myapp/db-creds"))
        [str "username", str "password"] ⟨[], 0⟩).2.fetchCount = 2
    ∧ (runCalls (awsRetrieveSecret awsTestEnv (str "sm") (str "myapp/db-creds"))
        [str "username", str "password"] ⟨[], 0⟩).2.entries = []
    ∧ (runCalls (awsRetrieveSecret awsTestEnv (str "sm") (str "myapp/db-creds"))
        [str "username", str "password"] ⟨[], 0⟩).1
      = [.ok (str "u"), .ok (str "p")] :=
  ⟨rfl, rfl, by simp [runCalls, awsRetrieveSecret, awsTestEnv, cloudKeyPathParse,
    extractJSONKeyStr, mockDecode, extractJSONKey, extractLoop, jsonCredsFields,
    splitDots, lookupField, str]⟩

/-- Claim C2 (amended): for each backend that consults the shared
cache — git, gcp and azure; the AWS backend is the exception and
fetches on every call — a sequence of N >= 1 RetrieveSecret calls for a
fixed (service, resource), with repeated or distinct keyPaths, starting
from a cache miss with a succeeding fetch, performs exactly one
external fetch: the raw payload is stored under the keyPath-free cache
key and every call's answer is pure post-processing of that payload. -/
theorem c2_cached_backends_single_fetch :
    (∀ (env : GitEnv) (service resource raw : Chars) (kps : List Chars) (st : CacheState),
      kps ≠ [] →
      mapGet st.entries (gitCacheKey service resource) = none →
      env.fetch (parseGitURL resource).1 (parseGitURL resource).2 = .ok raw →
      (runCalls (gitRetrieveSecret env service resource) kps st).1
          = kps.map (parseGitCredential raw)
      ∧ (runCalls (gitRetrieveSecret env service resource) kps st).2.fetchCount
          = st.fetchCount + 1
      ∧ mapGet (runCalls (gitRetrieveSecret env service resource) kps st).2.entries
          (gitCacheKey service resource) = some raw)
    ∧ (∀ (env : GCPEnv) (resource raw : Chars) (kps : List Chars) (st : CacheState),
      kps ≠ [] →
      mapGet st.entries (gcpCacheKey env.projectID resource) = none →
      env.fetch (normalizeSecretName env.projectID resource) = .ok raw →
      (runCalls (gcpRetrieveSecret env (str "sm") resource) kps st).1
          = kps.map (cloudKeyPathParse env.decode raw)
      ∧ (runCalls (gcpRetrieveSecret env (str "sm") resource) kps st).2.fetchCount
          = st.fetchCount + 1
      ∧ mapGet (runCalls (gcpRetrieveSecret env (str "sm") resource) kps st).2.entries
          (gcpCacheKey env.projectID resource) = some raw)
    ∧ (∀ (env : AzureEnv) (resource raw vaultName secretName version : Chars)
        (kps : List Chars) (st : CacheState),
      kps ≠ [] →
      parseKeyVaultResource resource = some (vaultName, secretName, version) →
      mapGet st.entries (azureCacheKey vaultName secretName version) = none →
      env.fetch vaultName secretName version = .ok raw →
      (runCalls (azureRetrieveSecret env (str "kv") resource) kps st).1
          = kps.map (cloudKeyPathParse env.decode raw)
      ∧ (runCalls (azureRetrieveSecret env (str "kv") resource) kps st).2.fetchCount
          = st.fetchCount + 1
      ∧ mapGet (runCalls (azureRetrieveSecret env (str "kv") resource) kps st).2.entries
          (azureCacheKey vaultName secretName version) = some raw) :=
  ⟨fun env service resource raw kps st hne hmiss hfetch =>
      gitRetrieve_single_fetch env service resource raw kps st hne hmiss hfetch,
   fun env resource raw kps st hne hmiss hfetch =>
      gcpRetrieve_single_fetch env resource raw kps st hne hmiss hfetch,
   fun env resource raw vaultName secretName version kps st hne hres hmiss hfetch =>
      azureRetrieve_single_fetch env resource raw vaultName secretName version
        kps st hne hres hmiss hfetch⟩

/-- Claim C2 witness: all three cached backends instantiated at concrete
environments and an initially empty cache. -/
theorem c2_cached_witness :
    ((runCalls (gitRetrieveSecret gitTestEnv [] (str "https://u@h.com"))
        [str "username", str "password", str "username"] ⟨[], 0⟩).1
      = [str "username", str "password", str "username"].map
          (parseGitCredential (str "username=u\npassword=p\n"))
    ∧ (runCalls (gitRetrieveSecret gitTestEnv [] (str "https://u@h.com"))
        [str "username", str "password", str "username"] ⟨[], 0⟩).2.fetchCount
      = (CacheState.mk [] 0).fetchCount + 1
    ∧ mapGet (runCalls (gitRetrieveSecret gitTestEnv [] (str "https://u@h.com"))
        [str "username", str "password", str "username"] ⟨[], 0⟩).2.entries
        (gitCacheKey [] (str "https://u@h.com"))
      = some (str "username=u\npassword=p\n"))
    ∧ ((runCalls (gcpRetrieveSecret gcpTestEnv (str "sm") (str "db-creds"))
        [str "username", str "password"] ⟨[], 0⟩).1
      = [str "username", str "password"].map
          (cloudKeyPathParse gcpTestEnv.decode jsonCredsPayload)
    ∧ (runCalls (gcpRetrieveSecret gcpTestEnv (str "sm") (str "db-creds"))
        [str "username", str "password"] ⟨[], 0⟩).2.fetchCount
      = (CacheState.mk [] 0).fetchCount + 1
    ∧ mapGet (runCalls (gcpRetrieveSecret gcpTestEnv (str "sm") (str "db-creds"))
        [str "username", str "password"] ⟨[], 0⟩).2.entries
        (gcpCacheKey gcpTestEnv.projectID (str "db-creds"))
      = some jsonCredsPayload)
    ∧ ((runCalls (azureRetrieveSecret azureTestEnv (str "kv") (str "vault/secret"))
        [str "username", str "password"] ⟨[], 0⟩).1
      = [str "username", str "password"].map
          (cloudKeyPathParse azureTestEnv.decode jsonCredsPayload)
    ∧ (runCalls (azureRetrieveSecret azureTestEnv (str "kv") (str "vault/secret"))
        [str "username", str "password"] ⟨[], 0⟩).2.fetchCount
      = (CacheState.mk [] 0).fetchCount + 1
    ∧ mapGet (runCalls (azureRetrieveSecret azureTestEnv (str "kv") (str "vault/secret"))
        [str "username", str "password"] ⟨[], 0⟩).2.entries
        (azureCacheKey (str "vault") (str "secret") [])
      = some jsonCredsPayload) :=
  ⟨c2_cached_backends_single_fetch.1 gitTestEnv [] (str "https://u@h.com")
      (str "username=u\npassword=p\n")
      [str "username", str "password", str "username"] ⟨[], 0⟩
      (by decide) rfl rfl,
   c2_cached_backends_single_fetch.2.1 gcpTestEnv (str "db-creds") jsonCredsPayload
      [str "username", str "password"] ⟨[], 0⟩
      (by decide) rfl rfl,
   c2_cached_backends_single_fetch.2.2 azureTestEnv (str "vault/secret") jsonCredsPayload
      (str "vault") (str "secret") []
      [str "username", str "password"] ⟨[], 0⟩
      (by decide) rfl rfl rfl⟩

/-! ## Claim theorems: JSON key extraction -/

theorem extractLoop_walkPath (kp : Chars) (segs : List Chars) :
    ∀ (i : Nat) (cur : JValue),
      (∀ v, walkPath cur segs = some v → extractLoop kp i cur segs = .ok v)
      ∧ (walkPath cur segs = none →
          ∃ seg j, segs[j]? = some seg ∧
            (extractLoop kp i cur segs = .error (.notObject kp seg (i + j))
             ∨ extractLoop kp i cur segs = .error (.keyNotFound kp seg (i + j)))) := by
  induction segs with
  | nil =>
    intro i cur
    refine ⟨fun v hv => ?_, fun hnone => ?_⟩
    · cases cur <;> (cases hv; rfl)
    · cases cur <;> cases hnone
  | cons k rest ih =>
    intro i cur
    cases cur with
    | obj fields =>
      cases hl : lookupField fields k with
      | some v2 =>
        constructor
        · intro v hv
          simp only [walkPath, hl] at hv
          simp only [extractLoop, hl]
          exact (ih (i + 1) v2).1 v hv
        · intro hnone
          simp only [walkPath, hl] at hnone
          obtain ⟨seg, j, hg, hor⟩ := (ih (i + 1) v2).2 hnone
          refine ⟨seg, j + 1, by simpa using hg, ?_⟩
          simp only [extractLoop, hl]
          have harith : i + (j + 1) = (i + 1) + j := by omega
          rw [harith]
          exact hor
      | none =>
        constructor
        · intro v hv
          simp only [walkPath, hl] at hv
          exact Option.noConfusion hv
        · intro _
          refine ⟨k, 0, by simp, Or.inr ?_⟩
          simp only [extractLoop, hl]
          rfl
    | null =>
      constructor
      · intro v hv
        cases hv
      · intro _
        refine ⟨k, 0, by simp, Or.inl ?_⟩
        rfl
    | bool b =>
      constructor
      · intro v hv
        cases hv
      · intro _
        refine ⟨k, 0, by simp, Or.inl ?_⟩
        rfl
    | num n =>
      constructor
      · intro v hv
        cases hv
      · intro _
        refine ⟨k, 0, by simp, Or.inl ?_⟩
        rfl
    | str s =>
      constructor
      · intro v hv
        cases hv
      · intro _
        refine ⟨k, 0, by simp, Or.inl ?_⟩
        rfl
    | arr elems =>
      constructor
      · intro v hv
        cases hv
      · intro _
        refine ⟨k, 0, by simp, Or.inl ?_⟩
        rfl

/-- Claim C7: for a decoded JSON object and a non-empty dotted keyPath,
extractJSONKey walks the object one segment at a time: a terminal string
is returned verbatim, a terminal null fails with the null-value error,
any other terminal value is returned re-serialized to its JSON text; and
when the walk fails, the error names the offending segment and its
zero-based index (notObject when an intermediate value is not an object,
keyNotFound when a key is absent). -/
theorem c7_extract_behavior (fields : List (Chars × JValue)) (keyPath : Chars)
    (_hne : keyPath ≠ []) :
    (∀ s, walkPath (.obj fields) (splitDots keyPath) = some (.str s) →
        extractJSONKey fields keyPath = .ok s)
    ∧ (walkPath (.obj fields) (splitDots keyPath) = some .null →
        extractJSONKey fields keyPath = .error (.nullValue keyPath))
    ∧ (∀ v, walkPath (.obj fields) (splitDots keyPath) = some v →
        (∀ s, v ≠ .str s) → v ≠ .null →
        extractJSONKey fields keyPath = .ok (jsonSerialize v))
    ∧ (walkPath (.obj fields) (splitDots keyPath) = none →
        ∃ segment index, (splitDots keyPath)[index]? = some segment
          ∧ (extractJSONKey fields keyPath = .error (.notObject keyPath segment index)
             ∨ extractJSONKey fields keyPath = .error (.keyNotFound keyPath segment index))) := by
  have hL := extractLoop_walkPath keyPath (splitDots keyPath) 0 (.obj fields)
  refine ⟨?_, ?_, ?_, ?_⟩
  · intro s hw
    have h1 := hL.1 _ hw
    unfold extractJSONKey
    rw [h1]
  · intro hw
    have h1 := hL.1 _ hw
    unfold extractJSONKey
    rw [h1]
  · intro v hw hstr hnull
    have h1 := hL.1 _ hw
    unfold extractJSONKey
    rw [h1]
    cases v with
    | str s => exact absurd rfl (hstr s)
    | null => exact absurd rfl hnull
    | bool b => rfl
    | num n => rfl
    | arr elems => rfl
    | obj fs => rfl
  · intro hw
    obtain ⟨seg, j, hg, hor⟩ := hL.2 hw
    have hz : 0 + j = j := Nat.zero_add j
    rw [hz] at hor
    refine ⟨seg, j, hg, ?_⟩
    rcases hor with h1 | h1
    · exact Or.inl (by unfold extractJSONKey; rw [h1])
    · exact Or.inr (by unfold extractJSONKey; rw [h1])

/-- Claim C7 witness: the specification's example — the dotted path
database.password over a nested object returns dbpass. -/
theorem c7_witness :
    extractJSONKey dbCredsFields (str "database.password") = .ok (str "dbpass") :=
  (c7_extract_behavior dbCredsFields (str "database.password") (by decide)).1
    (str "dbpass") rfl

end SecretInit
